import Mathlib

/-!
The two assembler headers of python-msp430-tools.

A verification development for

* `msp430/asm/include/iomacros.h` — the six register-declaration macros, and
* `examples/asm/forth_to_asm_advanced/hardware.h` — the Timer A UART
  configuration.

The headers are kept as their source lines.  They are given meaning by a small
model of the C preprocessor: line comments, the directives that occur in the
two files (`#ifndef`, `#endif`, `#include`, `#define`), the macro table, and
macro expansion with argument pre-expansion, rescanning and hide sets.
-/

namespace Cpp

/-! ## Preprocessing tokens -/

/-- Preprocessing tokens: identifiers, pp-numbers and one-character punctuators. -/
inductive Token where
  | ident (s : String)
  | number (s : String)
  | punct (c : Char)
  deriving DecidableEq, Repr

/-- A macro definition: object-like, or function-like with its parameter names. -/
inductive Macro where
  | obj (body : List Token)
  | fn (params : List String) (body : List Token)
  deriving DecidableEq, Repr

/-- Characters of identifiers and pp-numbers. -/
def isIdentChar (c : Char) : Bool := c.isAlphanum || c == '_'

/-- The token made of a maximal run of identifier characters. -/
def mkWord (w : List Char) : List Token :=
  match w with
  | [] => []
  | c :: _ => if c.isDigit then [Token.number (String.mk w)] else [Token.ident (String.mk w)]

/-- Tokenise a character list; the first argument is the pending word, reversed. -/
def lexFrom : List Char → List Char → List Token
  | w, [] => mkWord w.reverse
  | w, c :: cs =>
    if isIdentChar c then lexFrom (c :: w) cs
    else if c.isWhitespace then mkWord w.reverse ++ lexFrom [] cs
    else mkWord w.reverse ++ Token.punct c :: lexFrom [] cs

/-- Split a line at the first `//`: the code before it and the comment text after it. -/
def splitComment : List Char → List Char × Option (List Char)
  | [] => ([], none)
  | c :: cs =>
    if c = '/' ∧ cs.head? = some '/' then ([], some cs.tail)
    else (c :: (splitComment cs).1, (splitComment cs).2)

/-- The code part of a source line. -/
def codeOf (line : String) : List Char := (splitComment line.toList).1

/-- The comment part of a source line (empty when there is none). -/
def commentOf (line : String) : List Char := ((splitComment line.toList).2).getD []

/-- Drop leading white space. -/
def dropBlanks (cs : List Char) : List Char := cs.dropWhile Char.isWhitespace

/-- The identifiers among a token list (used for parameter lists). -/
def identsOf : List Token → List String
  | [] => []
  | Token.ident s :: ts => s :: identsOf ts
  | _ :: ts => identsOf ts

/-- A logical line after comment removal. -/
inductive Directive where
  | ifndef (name : String)
  | endif
  | include (header : String)
  | defineObj (name : String) (body : List Token)
  | defineFn (name : String) (params : List String) (body : List Token)
  | text (toks : List Token)
  deriving DecidableEq, Repr

/-- Parse what follows `#define`: a `(` directly after the name makes the macro function-like. -/
def parseDefine (rest : List Char) : Option Directive :=
  match rest.span isIdentChar with
  | ([], _) => none
  | (nm, after) =>
    match after with
    | '(' :: ps =>
      match ps.span (fun c => c != ')') with
      | (plist, _ :: body) => some (Directive.defineFn (String.mk nm) (identsOf (lexFrom [] plist)) (lexFrom [] body))
      | (_, []) => none
    | _ => some (Directive.defineObj (String.mk nm) (lexFrom [] after))

/-- Parse the code part of a line.  Directives other than the four used by the
two headers are not supported (`none`). -/
def parseCode (code : List Char) : Option Directive :=
  match dropBlanks code with
  | '#' :: rest =>
    match (dropBlanks rest).span isIdentChar with
    | (kw, rest1) =>
      if kw = "ifndef".toList then
        match (dropBlanks rest1).span isIdentChar with
        | ([], _) => none
        | (nm, _) => some (Directive.ifndef (String.mk nm))
      else if kw = "endif".toList then some Directive.endif
      else if kw = "include".toList then
        some (Directive.include (String.mk ((dropBlanks rest1).takeWhile (fun c => !c.isWhitespace))))
      else if kw = "define".toList then parseDefine (dropBlanks rest1)
      else none
  | _ => some (Directive.text (lexFrom [] code))

/-- Parse a source line: remove the line comment, then read the directive. -/
def parseLine (line : String) : Option Directive := parseCode (codeOf line)

/-! ## The source files -/

/-- The lines of `examples/asm/forth_to_asm_advanced/hardware.h`. -/
def hardware_h : List String :=
  [ "#ifndef HARDWARE_H",
    "#define HARDWARE_H",
    "",
    "#include <msp430g2231.h>",
    "",
    "// Timer A UART configuration",
    "#define TAUART_RX_INTERRUPT __vector_100",
    "#define TAUART_VECTOR       TIMERA1_VECTOR",
    "//~ #define TAUART_TX_DINT",
    "",
    "#define TAUART_BIT_TICKS  416 // ~2400 @ 1e6",
    "//~ #define TAUART_BIT_TICKS  208 // ~480 @ 1e6",
    "//~ #define TAUART_BIT_TICKS  104 // ~9600 @ 1e6",
    "",
    "#endif // HARDWARE_H",
    "" ]

/-- The lines of `msp430/asm/include/iomacros.h`. -/
def iomacros_h : List String :=
  [ "// map macros from TI header files to commands for assembler",
    "#define sfrb(x,x_) x=x_",
    "#define sfrw(x,x_) x=x_",
    "#define sfra(x,x_) x=x_",
    "",
    "#define const_sfrb(x,x_) sfrb(x,x_)",
    "#define const_sfrw(x,x_) sfrw(x,x_)",
    "#define const_sfra(x,x_) sfra(x,x_)" ]

/-! ## The macro table and the directives -/

/-- The macro table: names with their current definitions. -/
abbrev Table := List (String × Macro)

/-- The current definition of a name, if any. -/
def lookupMacro (n : String) : Table → Option Macro
  | [] => none
  | (k, m) :: t => if k = n then some m else lookupMacro n t

/-- Whether a name is currently defined (what `#ifdef` and `#ifndef` test). -/
def isDefined (n : String) (t : Table) : Bool := (lookupMacro n t).isSome

/-- The effect of `#define`: bind the name, replacing an earlier definition of it. -/
def defineMacro (n : String) (m : Macro) (t : Table) : Table :=
  (n, m) :: t.filter (fun p => p.1 ≠ n)

/-- Preprocessor state between lines: the macro table and the stack of open
conditional groups (`true` for a group whose lines are processed). -/
structure PPState where
  macros : Table
  conds : List Bool
  deriving DecidableEq, Repr

/-- Lines are processed only when every open conditional group is taken. -/
def PPState.active (st : PPState) : Bool := st.conds.all id

/-- Process one directive.  `hdr` gives the effect of including a header that
is not part of this repository on the macro table. -/
def ppDirective (hdr : String → Table → Table) (st : PPState) : Directive → Option PPState
  | Directive.ifndef n =>
    some { st with conds := (st.active && !isDefined n st.macros) :: st.conds }
  | Directive.endif =>
    match st.conds with
    | [] => none
    | _ :: cs => some { st with conds := cs }
  | Directive.include h =>
    if st.active then some { st with macros := hdr h st.macros } else some st
  | Directive.defineObj n b =>
    if st.active then some { st with macros := defineMacro n (Macro.obj b) st.macros } else some st
  | Directive.defineFn n ps b =>
    if st.active then some { st with macros := defineMacro n (Macro.fn ps b) st.macros } else some st
  | Directive.text _ => some st

/-- Process one source line.  An unsupported directive is an error unless it
lies in a skipped group. -/
def ppLine (hdr : String → Table → Table) (st : PPState) (line : String) : Option PPState :=
  match parseLine line with
  | some d => ppDirective hdr st d
  | none => if st.active then none else some st

/-- Process the lines of a file in order. -/
def ppLines (hdr : String → Table → Table) : List String → PPState → Option PPState
  | [], st => some st
  | l :: ls, st => (ppLine hdr st l).bind (ppLines hdr ls)

/-- The macro table after a file has been processed starting from table `tbl`;
every conditional opened in the file must be closed in it. -/
def ppFile (hdr : String → Table → Table) (file : List String) (tbl : Table) : Option Table :=
  match ppLines hdr file { macros := tbl, conds := [] } with
  | some st => if st.conds = [] then some st.macros else none
  | none => none

/-! ## Macro expansion -/

/-- A token with its hide set: the macros whose expansion produced it. -/
abbrev HTok := Token × List String

/-- Add a hide set to every token of a list. -/
def hsadd (hs : List String) (ts : List HTok) : List HTok :=
  ts.map (fun t => (t.1, hs ++ t.2))

/-- The macro table a translation unit builds from the empty table, when it
includes no outside header. -/
def tableOf (unit : List String) : Table := (ppFile (fun _ t => t) unit []).getD []

/-- The macro table after `iomacros.h` alone. -/
def iomacrosTable : Table := tableOf iomacros_h

/-- The names `iomacros.h` defines. -/
def iomacrosNames : List String :=
  ["sfrb", "sfrw", "sfra", "const_sfrb", "const_sfrw", "const_sfra"]

/-- Whether a macro table binds the six names as `iomacros.h` defines them.
Such a table may bind any other names as well: predefined macros, and those of
the unit that includes the header. -/
def bindsIomacros (tbl : Table) : Bool :=
  iomacrosNames.all (fun m => decide (lookupMacro m tbl = lookupMacro m iomacrosTable))

/-- Process a list of parsed directives in order. -/
def ppDirectives (hdr : String → Table → Table) : List Directive → PPState → Option PPState
  | [], st => some st
  | d :: ds, st => (ppDirective hdr st d).bind (ppDirectives hdr ds)

/-- The definition a source line gives to the name `n`, when the line is a `#define` of it. -/
def definitionIn (n : String) (line : String) : Option Macro :=
  match parseLine line with
  | some (Directive.defineObj k b) => if k = n then some (Macro.obj b) else none
  | some (Directive.defineFn k ps b) => if k = n then some (Macro.fn ps b) else none
  | _ => none

/-- All definitions the `#define` lines of a file give to the name `n`, in order. -/
def definitionsOf (n : String) (file : List String) : List Macro :=
  file.filterMap (definitionIn n)

/-- The replacement list of a macro. -/
def Macro.body : Macro → List Token
  | Macro.obj b => b
  | Macro.fn _ b => b

/-- The tokens of the code parts of a file, comments removed. -/
def codeTokens (file : List String) : List Token :=
  (file.map (fun l => lexFrom [] (codeOf l))).flatten

/-- The tokens of the comments of a file. -/
def commentTokens (file : List String) : List Token :=
  (file.map (fun l => lexFrom [] (commentOf l))).flatten

/-- Decimal value of a digit string, with an accumulator. -/
def decimalFrom : Nat → List Char → Option Nat
  | acc, [] => some acc
  | acc, c :: cs => if c.isDigit then decimalFrom (10 * acc + (c.toNat - 48)) cs else none

/-- Decimal value of a non-empty digit string. -/
def decimal (cs : List Char) : Option Nat :=
  if cs = [] then none else decimalFrom 0 cs

/-- The value of a pp-number of the two shapes used in `hardware.h`:
decimal digits (`416`) and digits with a decimal exponent (`1e6`). -/
def ppNumberValue (s : String) : Option Nat :=
  match s.toList.span Char.isDigit with
  | (m, []) => decimal m
  | (m, c :: x) =>
    if c = 'e' then
      match decimal m, decimal x with
      | some a, some b => some (a * 10 ^ b)
      | _, _ => none
    else none

/-- The bit period bound by a macro table: the value of `TAUART_BIT_TICKS`. -/
def bitTicks (t : Table) : Option Nat :=
  match lookupMacro "TAUART_BIT_TICKS" t with
  | some (Macro.obj [Token.number n]) => ppNumberValue n
  | _ => none

/-- The annotation `~<baud> @ <clock>` in the tokens of a comment. -/
def annotationOf : List Token → Option (Nat × Nat)
  | [] => none
  | t :: ts =>
    match t, ts with
    | Token.punct c, Token.number b :: Token.punct d :: Token.number f :: _ =>
      if c = '~' ∧ d = '@' then
        match ppNumberValue b, ppNumberValue f with
        | some bv, some fv => some (bv, fv)
        | _, _ => none
      else annotationOf ts
    | _, _ => annotationOf ts

/-- A line disabled with the `//~ ` marker: the text the marker hides. -/
def disabledLine (line : String) : Option String :=
  if "//~ ".toList.isPrefixOf line.toList then some (String.mk (line.toList.drop 4)) else none

/-- A bit-period preset: tick count with its annotated baud rate and clock, and
whether the line carrying it is live. -/
structure Preset where
  ticks : Nat
  baud : Nat
  clock : Nat
  active : Bool
  deriving DecidableEq, Repr

/-- The preset a `#define TAUART_BIT_TICKS` line carries. -/
def presetIn (active : Bool) (line : String) : Option Preset :=
  match definitionIn "TAUART_BIT_TICKS" line, annotationOf (lexFrom [] (commentOf line)) with
  | some (Macro.obj [Token.number n]), some (b, c) =>
    (ppNumberValue n).map (fun t => { ticks := t, baud := b, clock := c, active := active })
  | _, _ => none

/-- The preset of a line, live or disabled. -/
def presetOfLine (line : String) : Option Preset :=
  match presetIn true line with
  | some p => some p
  | none => (disabledLine line).bind (presetIn false)

/-- The bit-period presets of `hardware.h`, in file order. -/
def presets : List Preset := hardware_h.filterMap presetOfLine

/-- A stand-in for the vendor header `msp430g2231.h`, used in examples: it
defines the interrupt vector the profile names. -/
def sampleVendorHeader (_header : String) (t : Table) : Table :=
  defineMacro "TIMERA1_VECTOR" (Macro.obj [Token.number "16"]) t

/-! ## Facts about the model -/

theorem iomacrosTable_eq : iomacrosTable =
    [ ("const_sfra", Macro.fn ["x", "x_"] [Token.ident "sfra", Token.punct '(', Token.ident "x",
        Token.punct ',', Token.ident "x_", Token.punct ')']),
      ("const_sfrw", Macro.fn ["x", "x_"] [Token.ident "sfrw", Token.punct '(', Token.ident "x",
        Token.punct ',', Token.ident "x_", Token.punct ')']),
      ("const_sfrb", Macro.fn ["x", "x_"] [Token.ident "sfrb", Token.punct '(', Token.ident "x",
        Token.punct ',', Token.ident "x_", Token.punct ')']),
      ("sfra", Macro.fn ["x", "x_"] [Token.ident "x", Token.punct '=', Token.ident "x_"]),
      ("sfrw", Macro.fn ["x", "x_"] [Token.ident "x", Token.punct '=', Token.ident "x_"]),
      ("sfrb", Macro.fn ["x", "x_"] [Token.ident "x", Token.punct '=', Token.ident "x_"]) ] := by
  decide

/-! ## The hardware profile -/

/-- Processing lines is processing their directives, when every line parses. -/
theorem ppLines_eq_ppDirectives (hdr : String → Table → Table) (lines : List String)
    (ds : List Directive) (h : lines.map parseLine = ds.map some) (st : PPState) :
    ppLines hdr lines st = ppDirectives hdr ds st := by
  induction lines generalizing ds st with
  | nil =>
    cases ds with
    | nil => rfl
    | cons d ds => simp at h
  | cons l ls ih =>
    cases ds with
    | nil => simp at h
    | cons d ds =>
      simp only [List.map_cons, List.cons.injEq] at h
      simp only [ppLines, ppDirectives, ppLine, h.1]
      cases ppDirective hdr st d with
      | none => rfl
      | some st1 => exact ih ds h.2 st1

/-- The directives of `hardware.h`. -/
theorem hardware_h_parsed : hardware_h.map parseLine =
    [ Directive.ifndef "HARDWARE_H",
      Directive.defineObj "HARDWARE_H" [],
      Directive.text [],
      Directive.include "<msp430g2231.h>",
      Directive.text [],
      Directive.text [],
      Directive.defineObj "TAUART_RX_INTERRUPT" [Token.ident "__vector_100"],
      Directive.defineObj "TAUART_VECTOR" [Token.ident "TIMERA1_VECTOR"],
      Directive.text [],
      Directive.text [],
      Directive.defineObj "TAUART_BIT_TICKS" [Token.number "416"],
      Directive.text [],
      Directive.text [],
      Directive.text [],
      Directive.endif,
      Directive.text [] ].map some := by
  decide

theorem lookupMacro_filter_ne (n m : String) (t : Table) (h : m ≠ n) :
    lookupMacro n (t.filter (fun p => p.1 ≠ m)) = lookupMacro n t := by
  induction t with
  | nil => rfl
  | cons p t ih =>
    obtain ⟨k, x⟩ := p
    simp only [ne_eq, decide_not] at ih ⊢
    by_cases hk : k = m
    · subst hk
      simp [List.filter, lookupMacro, h, ih]
    · simp [List.filter, lookupMacro, hk, ih]

/-- Looking a name up after a `#define`. -/
theorem lookupMacro_defineMacro (n m : String) (x : Macro) (t : Table) :
    lookupMacro n (defineMacro m x t) = if m = n then some x else lookupMacro n t := by
  by_cases h : m = n
  · simp [defineMacro, lookupMacro, h]
  · have hf := lookupMacro_filter_ne n m t h
    simp only [ne_eq, decide_not] at hf
    simp [defineMacro, lookupMacro, h, hf]

/-- The table `hardware.h` builds when its guard is not yet defined. -/
theorem ppFile_hardware_fresh (hdr : String → Table → Table) (tbl : Table)
    (h : isDefined "HARDWARE_H" tbl = false) :
    ppFile hdr hardware_h tbl = some
      (defineMacro "TAUART_BIT_TICKS" (Macro.obj [Token.number "416"])
        (defineMacro "TAUART_VECTOR" (Macro.obj [Token.ident "TIMERA1_VECTOR"])
          (defineMacro "TAUART_RX_INTERRUPT" (Macro.obj [Token.ident "__vector_100"])
            (hdr "<msp430g2231.h>" (defineMacro "HARDWARE_H" (Macro.obj []) tbl))))) := by
  rw [ppFile, ppLines_eq_ppDirectives hdr hardware_h _ hardware_h_parsed]
  simp [ppDirectives, ppDirective, PPState.active, h]

/-- With its guard already defined, `hardware.h` changes nothing. -/
theorem ppFile_hardware_guarded (hdr : String → Table → Table) (tbl : Table)
    (h : isDefined "HARDWARE_H" tbl = true) :
    ppFile hdr hardware_h tbl = some tbl := by
  rw [ppFile, ppLines_eq_ppDirectives hdr hardware_h _ hardware_h_parsed]
  simp [ppDirectives, ppDirective, PPState.active, h]

theorem isDefined_defineMacro (n m : String) (x : Macro) (t : Table) :
    isDefined n (defineMacro m x t) = (decide (m = n) || isDefined n t) := by
  unfold isDefined
  rw [lookupMacro_defineMacro]
  by_cases h : m = n <;> simp [h]

/-- The bit period bound after `hardware.h` when its guard was not defined. -/
theorem bitTicks_hardware (hdr : String → Table → Table) (tbl : Table)
    (h : isDefined "HARDWARE_H" tbl = false) :
    (ppFile hdr hardware_h tbl).bind bitTicks = some 416 := by
  rw [ppFile_hardware_fresh hdr tbl h]
  have h416 : ppNumberValue "416" = some 416 := by decide
  simp [bitTicks, lookupMacro_defineMacro, h416]

/-! ## The hardware parameter set -/

/-- C3: exactly one bit-period preset is active in `hardware.h`.  The file has
exactly one live `#define TAUART_BIT_TICKS`, with replacement `416`; after the
file is processed (guard not yet defined, whatever the vendor header does) the
name is bound to `416`; the numbers `208` and `104` occur among the comment
tokens and nowhere among the code tokens; of the three presets only the one
with 416 ticks is live. -/
theorem one_active_bit_period (hdr : String → Table → Table) (tbl : Table)
    (h : isDefined "HARDWARE_H" tbl = false) :
    definitionsOf "TAUART_BIT_TICKS" hardware_h = [Macro.obj [Token.number "416"]]
    ∧ (ppFile hdr hardware_h tbl).bind (lookupMacro "TAUART_BIT_TICKS")
        = some (Macro.obj [Token.number "416"])
    ∧ (ppFile hdr hardware_h tbl).bind bitTicks = some 416
    ∧ Token.number "208" ∉ codeTokens hardware_h
    ∧ Token.number "104" ∉ codeTokens hardware_h
    ∧ Token.number "208" ∈ commentTokens hardware_h
    ∧ Token.number "104" ∈ commentTokens hardware_h
    ∧ (presets.filter (fun p => p.active)).map (fun p => p.ticks) = [416]
    ∧ (presets.filter (fun p => !p.active)).map (fun p => p.ticks) = [208, 104] := by
  refine ⟨by decide, ?_, ?_, by decide, by decide, by decide, by decide, by decide, by decide⟩
  · rw [ppFile_hardware_fresh hdr tbl h]
    simp [lookupMacro_defineMacro]
  · exact bitTicks_hardware hdr tbl h

/-- C3 for `hardware.h` processed from the empty table. -/
theorem one_active_bit_period_witness :
    isDefined "HARDWARE_H" [] = false
    ∧ (ppFile sampleVendorHeader hardware_h []).bind (lookupMacro "TAUART_BIT_TICKS")
        = some (Macro.obj [Token.number "416"])
    ∧ (ppFile sampleVendorHeader hardware_h []).bind bitTicks = some 416 :=
  ⟨by decide,
   (one_active_bit_period sampleVendorHeader [] (by decide)).2.1,
   (one_active_bit_period sampleVendorHeader [] (by decide)).2.2.1⟩

/-- C4: the active bit period is the tick count of 2400 baud at 1 MHz.  The
one live preset has 416 ticks, annotated with 2400 baud at a clock of 10^6; it
is the bit period the processed file binds; 416 is the integer quotient of the
clock by the baud rate; and the realised rate clock/416 is within one percent
of 2400, in rational arithmetic. -/
theorem bit_period_from_baud (hdr : String → Table → Table) :
    ∃ p : Preset, presets.filter (fun q => q.active) = [p]
      ∧ (ppFile hdr hardware_h []).bind bitTicks = some p.ticks
      ∧ p.ticks = 416 ∧ p.baud = 2400 ∧ p.clock = 1000000
      ∧ p.ticks = p.clock / p.baud
      ∧ |(p.clock : ℚ) / (p.ticks : ℚ) - (p.baud : ℚ)| < (p.baud : ℚ) / 100 := by
  refine ⟨⟨416, 2400, 1000000, true⟩, by decide, ?_, rfl, rfl, rfl, by decide, ?_⟩
  · exact bitTicks_hardware hdr [] (by decide)
  · rw [abs_lt]
    constructor <;> norm_num

/-- C5, evaluated on the source: the three presets of `hardware.h` with their
annotations.  208 and 104 are the integer quotients of 10^6 by 4800 and by
9600, and the annotations of 416 and 104 read 2400 and 9600, but the line of the
208-tick preset is annotated `~480`, not 4800, and 480 baud does not give 208
ticks. -/
theorem preset_annotations :
    presets = [ { ticks := 416, baud := 2400, clock := 1000000, active := true },
                { ticks := 208, baud := 480, clock := 1000000, active := false },
                { ticks := 104, baud := 9600, clock := 1000000, active := false } ]
    ∧ presetOfLine "//~ #define TAUART_BIT_TICKS  208 // ~480 @ 1e6"
        = some { ticks := 208, baud := 480, clock := 1000000, active := false }
    ∧ 208 = 1000000 / 4800 ∧ 104 = 1000000 / 9600
    ∧ (presets.filter (fun p => p.ticks = 208)).map (fun p => p.baud) ≠ [4800]
    ∧ (presets.filter (fun p => p.ticks ≠ p.clock / p.baud)).map (fun p => p.ticks) = [208] := by
  refine ⟨by decide, by decide, by decide, by decide, by decide, by decide⟩

/-- C6: the transmit-interrupt-disable flag is absent by default.  When the
guard and `TAUART_TX_DINT` are not defined beforehand and the vendor header
does not define `TAUART_TX_DINT`, processing `hardware.h` succeeds and leaves
`TAUART_TX_DINT` undefined while `TAUART_RX_INTERRUPT`, `TAUART_VECTOR` and
`TAUART_BIT_TICKS` are defined; no line of the file defines `TAUART_TX_DINT`,
and the name occurs once, among the comment tokens. -/
theorem tx_dint_absent (hdr : String → Table → Table) (tbl : Table)
    (h : isDefined "HARDWARE_H" tbl = false)
    (htx : isDefined "TAUART_TX_DINT" tbl = false)
    (hhdr : ∀ t, isDefined "TAUART_TX_DINT" t = false →
      isDefined "TAUART_TX_DINT" (hdr "<msp430g2231.h>" t) = false) :
    (∃ t1, ppFile hdr hardware_h tbl = some t1
      ∧ isDefined "TAUART_TX_DINT" t1 = false
      ∧ isDefined "TAUART_RX_INTERRUPT" t1 = true
      ∧ isDefined "TAUART_VECTOR" t1 = true
      ∧ isDefined "TAUART_BIT_TICKS" t1 = true)
    ∧ definitionsOf "TAUART_TX_DINT" hardware_h = []
    ∧ (codeTokens hardware_h).count (Token.ident "TAUART_TX_DINT") = 0
    ∧ (commentTokens hardware_h).count (Token.ident "TAUART_TX_DINT") = 1 := by
  refine ⟨⟨_, ppFile_hardware_fresh hdr tbl h, ?_, ?_, ?_, ?_⟩, by decide, by decide, by decide⟩
  · have h1 : isDefined "TAUART_TX_DINT" (defineMacro "HARDWARE_H" (Macro.obj []) tbl) = false := by
      rw [isDefined_defineMacro, htx]; decide
    have h2 := hhdr _ h1
    rw [isDefined_defineMacro, isDefined_defineMacro, isDefined_defineMacro, h2]
    decide
  · rw [isDefined_defineMacro, isDefined_defineMacro, isDefined_defineMacro]
    simp
  · rw [isDefined_defineMacro, isDefined_defineMacro]
    simp
  · rw [isDefined_defineMacro]
    simp

/-- C6 for `hardware.h` processed from the empty table. -/
theorem tx_dint_absent_witness :
    isDefined "HARDWARE_H" [] = false
    ∧ isDefined "TAUART_TX_DINT" [] = false
    ∧ (∀ t, isDefined "TAUART_TX_DINT" t = false →
        isDefined "TAUART_TX_DINT" (sampleVendorHeader "<msp430g2231.h>" t) = false)
    ∧ ∃ t1, ppFile sampleVendorHeader hardware_h [] = some t1
      ∧ isDefined "TAUART_TX_DINT" t1 = false
      ∧ isDefined "TAUART_RX_INTERRUPT" t1 = true
      ∧ isDefined "TAUART_VECTOR" t1 = true
      ∧ isDefined "TAUART_BIT_TICKS" t1 = true :=
  ⟨by decide, by decide,
   fun t ht => by rw [sampleVendorHeader, isDefined_defineMacro, ht]; decide,
   (tx_dint_absent sampleVendorHeader [] (by decide) (by decide)
     (fun t ht => by rw [sampleVendorHeader, isDefined_defineMacro, ht]; decide)).1⟩

/-- C7: the interrupt vector selector and the bit period are independent.  In
every macro table, redefining `TAUART_VECTOR` to anything leaves the binding
and the value of `TAUART_BIT_TICKS` as they were, and redefining
`TAUART_BIT_TICKS` leaves the binding of `TAUART_VECTOR` as it was; and in
`hardware.h` the replacement text of neither names the other. -/
theorem vector_ticks_independent (tbl : Table) (m : Macro) :
    lookupMacro "TAUART_BIT_TICKS" (defineMacro "TAUART_VECTOR" m tbl)
        = lookupMacro "TAUART_BIT_TICKS" tbl
    ∧ bitTicks (defineMacro "TAUART_VECTOR" m tbl) = bitTicks tbl
    ∧ lookupMacro "TAUART_VECTOR" (defineMacro "TAUART_BIT_TICKS" m tbl)
        = lookupMacro "TAUART_VECTOR" tbl
    ∧ definitionsOf "TAUART_VECTOR" hardware_h = [Macro.obj [Token.ident "TIMERA1_VECTOR"]]
    ∧ definitionsOf "TAUART_BIT_TICKS" hardware_h = [Macro.obj [Token.number "416"]]
    ∧ ((definitionsOf "TAUART_VECTOR" hardware_h).all
        (fun d => decide (Token.ident "TAUART_BIT_TICKS" ∉ d.body))) = true
    ∧ ((definitionsOf "TAUART_BIT_TICKS" hardware_h).all
        (fun d => decide (Token.ident "TAUART_VECTOR" ∉ d.body))) = true := by
  have h1 : lookupMacro "TAUART_BIT_TICKS" (defineMacro "TAUART_VECTOR" m tbl)
      = lookupMacro "TAUART_BIT_TICKS" tbl := by
    rw [lookupMacro_defineMacro]; simp
  refine ⟨h1, ?_, ?_, by decide, by decide, by decide, by decide⟩
  · simp only [bitTicks, h1]
  · rw [lookupMacro_defineMacro]; simp

/-- C9: including `hardware.h` is idempotent.  Provided the vendor header
leaves the guard `HARDWARE_H` defined, processing the file from any macro table
succeeds, and processing it again from the resulting table succeeds and yields
that same table. -/
theorem include_idempotent (hdr : String → Table → Table) (tbl : Table)
    (hinc : ∀ t, isDefined "HARDWARE_H" t = true →
      isDefined "HARDWARE_H" (hdr "<msp430g2231.h>" t) = true) :
    ∃ t1, ppFile hdr hardware_h tbl = some t1 ∧ ppFile hdr hardware_h t1 = some t1 := by
  cases h : isDefined "HARDWARE_H" tbl with
  | true => exact ⟨tbl, ppFile_hardware_guarded hdr tbl h, ppFile_hardware_guarded hdr tbl h⟩
  | false =>
    refine ⟨_, ppFile_hardware_fresh hdr tbl h, ppFile_hardware_guarded hdr _ ?_⟩
    have h1 : isDefined "HARDWARE_H" (defineMacro "HARDWARE_H" (Macro.obj []) tbl) = true := by
      rw [isDefined_defineMacro]; simp
    have h2 := hinc _ h1
    rw [isDefined_defineMacro, isDefined_defineMacro, isDefined_defineMacro, h2]
    simp

/-- C9 for two inclusions starting from the empty table. -/
theorem include_idempotent_witness :
    (∀ t, isDefined "HARDWARE_H" t = true →
        isDefined "HARDWARE_H" (sampleVendorHeader "<msp430g2231.h>" t) = true)
    ∧ ∃ t1, ppFile sampleVendorHeader hardware_h [] = some t1
      ∧ ppFile sampleVendorHeader hardware_h t1 = some t1 :=
  ⟨fun t ht => by rw [sampleVendorHeader, isDefined_defineMacro, ht]; simp,
   include_idempotent sampleVendorHeader []
     (fun t ht => by rw [sampleVendorHeader, isDefined_defineMacro, ht]; simp)⟩

/-! ## Expansion lemmas -/

theorem hsadd_append (hs : List String) (l1 l2 : List HTok) :
    hsadd hs (l1 ++ l2) = hsadd hs l1 ++ hsadd hs l2 := by
  simp [hsadd]

theorem hsadd_cons (hs : List String) (t : HTok) (l : List HTok) :
    hsadd hs (t :: l) = (t.1, hs ++ t.2) :: hsadd hs l := by
  simp [hsadd]

/-- The definitions `iomacros.h` gives to the three plain macros and to the
three constant macros, in any table that binds them as the header does. -/
theorem bindsIomacros_lookup (tbl : Table) (h : bindsIomacros tbl = true) :
    (lookupMacro "sfrb" tbl =
        some (Macro.fn ["x", "x_"] [Token.ident "x", Token.punct '=', Token.ident "x_"])
      ∧ lookupMacro "sfrw" tbl =
        some (Macro.fn ["x", "x_"] [Token.ident "x", Token.punct '=', Token.ident "x_"])
      ∧ lookupMacro "sfra" tbl =
        some (Macro.fn ["x", "x_"] [Token.ident "x", Token.punct '=', Token.ident "x_"]))
    ∧ (lookupMacro "const_sfrb" tbl =
        some (Macro.fn ["x", "x_"] [Token.ident "sfrb", Token.punct '(', Token.ident "x",
          Token.punct ',', Token.ident "x_", Token.punct ')'])
      ∧ lookupMacro "const_sfrw" tbl =
        some (Macro.fn ["x", "x_"] [Token.ident "sfrw", Token.punct '(', Token.ident "x",
          Token.punct ',', Token.ident "x_", Token.punct ')'])
      ∧ lookupMacro "const_sfra" tbl =
        some (Macro.fn ["x", "x_"] [Token.ident "sfra", Token.punct '(', Token.ident "x",
          Token.punct ',', Token.ident "x_", Token.punct ')'])) := by
  simp only [bindsIomacros, iomacrosNames, List.all_cons, List.all_nil, Bool.and_true,
    Bool.and_eq_true, decide_eq_true_eq] at h
  obtain ⟨h1, h2, h3, h4, h5, h6⟩ := h
  refine ⟨⟨?_, ?_, ?_⟩, ?_, ?_, ?_⟩
  · rw [h1]; decide
  · rw [h2]; decide
  · rw [h3]; decide
  · rw [h4]; decide
  · rw [h5]; decide
  · rw [h6]; decide

/-- The directives of `iomacros.h`. -/
theorem iomacros_h_parsed : iomacros_h.map parseLine =
    [ Directive.text [],
      Directive.defineFn "sfrb" ["x", "x_"] [Token.ident "x", Token.punct '=', Token.ident "x_"],
      Directive.defineFn "sfrw" ["x", "x_"] [Token.ident "x", Token.punct '=', Token.ident "x_"],
      Directive.defineFn "sfra" ["x", "x_"] [Token.ident "x", Token.punct '=', Token.ident "x_"],
      Directive.text [],
      Directive.defineFn "const_sfrb" ["x", "x_"] [Token.ident "sfrb", Token.punct '(',
        Token.ident "x", Token.punct ',', Token.ident "x_", Token.punct ')'],
      Directive.defineFn "const_sfrw" ["x", "x_"] [Token.ident "sfrw", Token.punct '(',
        Token.ident "x", Token.punct ',', Token.ident "x_", Token.punct ')'],
      Directive.defineFn "const_sfra" ["x", "x_"] [Token.ident "sfra", Token.punct '(',
        Token.ident "x", Token.punct ',', Token.ident "x_", Token.punct ')'] ].map some := by
  decide

/-- The table `iomacros.h` builds, wherever it is included. -/
theorem ppFile_iomacros (hdr : String → Table → Table) (tbl : Table) :
    ppFile hdr iomacros_h tbl = some
      (defineMacro "const_sfra" (Macro.fn ["x", "x_"] [Token.ident "sfra", Token.punct '(',
          Token.ident "x", Token.punct ',', Token.ident "x_", Token.punct ')'])
        (defineMacro "const_sfrw" (Macro.fn ["x", "x_"] [Token.ident "sfrw", Token.punct '(',
            Token.ident "x", Token.punct ',', Token.ident "x_", Token.punct ')'])
          (defineMacro "const_sfrb" (Macro.fn ["x", "x_"] [Token.ident "sfrb", Token.punct '(',
              Token.ident "x", Token.punct ',', Token.ident "x_", Token.punct ')'])
            (defineMacro "sfra"
                (Macro.fn ["x", "x_"] [Token.ident "x", Token.punct '=', Token.ident "x_"])
              (defineMacro "sfrw"
                  (Macro.fn ["x", "x_"] [Token.ident "x", Token.punct '=', Token.ident "x_"])
                (defineMacro "sfrb"
                    (Macro.fn ["x", "x_"] [Token.ident "x", Token.punct '=', Token.ident "x_"])
                  tbl)))))) := by
  rw [ppFile, ppLines_eq_ppDirectives hdr iomacros_h _ iomacros_h_parsed]
  simp [ppDirectives, ppDirective, PPState.active]

/-- Wherever `iomacros.h` is included, the table afterwards binds its six names
as the header defines them. -/
theorem ppFile_iomacros_binds (hdr : String → Table → Table) (tbl : Table) :
    ∃ t, ppFile hdr iomacros_h tbl = some t ∧ bindsIomacros t = true := by
  refine ⟨_, ppFile_iomacros hdr tbl, ?_⟩
  have h := bindsIomacros_lookup iomacrosTable (by decide)
  obtain ⟨⟨h1, h2, h3⟩, h4, h5, h6⟩ := h
  simp only [bindsIomacros, iomacrosNames, List.all_cons, List.all_nil, Bool.and_true,
    Bool.and_eq_true, decide_eq_true_eq, h1, h2, h3, h4, h5, h6, lookupMacro_defineMacro]
  simp

end Cpp
